import Mathlib

/-!
Verification of the identity and signing subsystem of `convex-api-py`
(`convex_api/account.py`): key material, the three at-rest codecs
(encrypted PEM text, BIP-39 mnemonic, raw bytes), address normalization,
and the `Account` object composing them.

Modelling conventions:
* Python byte strings are `List Nat`; Python text strings are `List Char`.
* The external `cryptography` library's Ed25519 primitives (public-key
  derivation, signing) are arbitrary pure functions bundled in `Ed25519`;
  the theorems quantify over them, since the round-trip, frame and error
  properties hold for every choice.
* The external serialization formats (encrypted PKCS8 PEM, BIP-39 word
  sequence) are modelled by the documented contract of the libraries that
  produce them: a lossless container for the wrapped bytes, with the PEM
  container additionally bound to its encryption password and carrying an
  integrity check, so decryption with the wrong password fails.
* Methods that mutate `self` (the `address` setter) or could be suspected
  of doing so (`sign`) are state-passing: they return the post-state next
  to the result, and a Python raise before any assignment returns the
  pre-state unchanged.
-/

namespace ConvexApi

/-- Byte strings (Python `bytes`) as lists of naturals. -/
abbrev Bytes := List Nat

/-- The error kinds the subsystem surfaces (spec section 7 taxonomy);
`valueError` stands for an untranslated `ValueError` escaping from a
library call such as hex decoding. -/
inductive ErrorKind where
  | invalidKeyFormat
  | decryptionError
  | invalidMnemonic
  | invalidAddress
  | valueError
deriving DecidableEq

/-- Model of the external `cryptography` library's Ed25519 primitives:
derivation of the public key bytes from the 32-byte private seed, and the
(deterministic, RFC 8032) signature over a message given the seed. The
development quantifies over this structure. -/
structure Ed25519 where
  pubkey : Bytes → Bytes
  signBytes : Bytes → Bytes → Bytes

/-- Model of an `Ed25519PrivateKey` object: it is determined by its raw
32 seed bytes. -/
structure Ed25519PrivateKey where
  seed : Bytes
deriving DecidableEq

/-- Model of `Ed25519PrivateKey.from_private_bytes`: the library accepts
exactly 32 bytes and raises a format error otherwise. -/
def Ed25519PrivateKey.from_private_bytes (value : Bytes) :
    Except ErrorKind Ed25519PrivateKey :=
  if value.length = 32 then .ok ⟨value⟩ else .error .invalidKeyFormat

/-- Model of `private_bytes(Raw, Raw, NoEncryption())`: the raw seed. -/
def Ed25519PrivateKey.private_bytes_raw (k : Ed25519PrivateKey) : Bytes :=
  k.seed

/-- Model of the encrypted PKCS8 PEM archive produced by
`private_bytes(PEM, PKCS8, BestAvailableEncryption(password))`: the blob
losslessly wraps the seed and is bound to the encryption password through
the embedded integrity check. -/
structure PemBlob where
  wrapped : Bytes
  passwordTag : Bytes
deriving DecidableEq

/-- Model of `private_bytes` with PEM/PKCS8 encoding and password
encryption. -/
def Ed25519PrivateKey.private_bytes_pem (k : Ed25519PrivateKey)
    (password : Bytes) : PemBlob :=
  ⟨k.seed, password⟩

/-- Model of `serialization.load_pem_private_key`: the right password
recovers the wrapped key object; a wrong password trips the integrity
check and the library raises a decryption error. -/
def load_pem_private_key (text : PemBlob) (password : Bytes) :
    Except ErrorKind Ed25519PrivateKey :=
  if text.passwordTag = password then .ok ⟨text.wrapped⟩
  else .error .decryptionError

/-- Model of a BIP-39 word sequence from the external `mnemonic` library:
the checksummed word list is a lossless encoding of the entropy bytes. -/
structure MnemonicWords where
  entropyOf : Bytes
deriving DecidableEq

/-- Valid BIP-39 entropy lengths accepted by `Mnemonic.to_mnemonic`. -/
def bip39Len (n : Nat) : Prop :=
  n = 16 ∨ n = 20 ∨ n = 24 ∨ n = 28 ∨ n = 32

instance (n : Nat) : Decidable (bip39Len n) := by
  unfold bip39Len
  infer_instance

/-- Model of `Mnemonic('english').to_mnemonic`: encode the entropy bytes
as a word sequence; the library raises for unsupported entropy sizes. -/
def Mnemonic.to_mnemonic (data : Bytes) : Except ErrorKind MnemonicWords :=
  if bip39Len data.length then .ok ⟨data⟩ else .error .invalidMnemonic

/-- Model of `Mnemonic('english').to_entropy`: recover the entropy bytes,
validating word count and checksum. -/
def Mnemonic.to_entropy (words : MnemonicWords) : Except ErrorKind Bytes :=
  if bip39Len words.entropyOf.length then .ok words.entropyOf
  else .error .invalidMnemonic

/-- The closed union of runtime types the address argument takes in the
claims: a (signed) Python integer or a text string. -/
inductive AddrValue where
  | int (n : Int)
  | str (s : List Char)
deriving DecidableEq

/-- The decimal digit character for `m % 10`. -/
def decDigit (m : Nat) : Char :=
  Char.ofNat (48 + m % 10)

/-- Decimal digits of `n`, least significant first. -/
def natDigitsRev (n : Nat) : List Char :=
  if h : n < 10 then [decDigit n]
  else decDigit n :: natDigitsRev (n / 10)
termination_by n
decreasing_by exact Nat.div_lt_self (by omega) (by omega)

/-- The decimal rendering of `n` (Python `str(n)`). -/
def natRepr (n : Nat) : List Char :=
  (natDigitsRev n).reverse

/-- Value of a most-significant-first decimal digit string. -/
def parseDec (s : List Char) : Nat :=
  s.foldl (fun a c => a * 10 + (c.toNat - 48)) 0

/-- Whether `s` is a nonempty string of decimal digits. -/
def isDecDigits (s : List Char) : Bool :=
  !s.isEmpty && s.all (fun c => c.isDigit)

/-- Strip leading whitespace. -/
def ltrimChars (s : List Char) : List Char :=
  s.dropWhile (fun c => c.isWhitespace)

/-- Strip surrounding whitespace. -/
def trimChars (s : List Char) : List Char :=
  ((ltrimChars s).reverse.dropWhile (fun c => c.isWhitespace)).reverse

/-- Strip one leading `#` marker character, if present. -/
def stripHash (s : List Char) : List Char :=
  match s with
  | '#' :: rest => rest
  | _ => s

/-- Modelled from the spec: `convex_api.utils.to_address` — the module
`convex_api/utils.py` is not among the provided source files, only its
callers (`Account.__init__` and the `address` setter) are. Spec section
4.3: accept a non-negative integer, or a decimal-digit string optionally
carrying a single leading `#` marker with surrounding whitespace trimmed,
returning the canonical non-negative integer; signal `InvalidAddress` for
negative numbers, non-digit text and other malformed input. -/
def to_address (value : AddrValue) : Except ErrorKind Nat :=
  match value with
  | .int n => if 0 ≤ n then .ok n.toNat else .error .invalidAddress
  | .str s =>
      let t := stripHash (trimChars s)
      if isDecDigits t then .ok (parseDec t) else .error .invalidAddress

/-- Model of `Account`: the stored private key object, the public key
derived from it at construction time, and the optional address. -/
structure Account where
  _private_key : Ed25519PrivateKey
  _public_key : Bytes
  _address : Option Nat
deriving DecidableEq

/-- `Account.__init__`: store the key, derive and store the public key;
when an address argument is supplied it is validated through `to_address`
before being stored, and a raise there aborts construction. -/
def Account.init (impl : Ed25519) (private_key : Ed25519PrivateKey)
    (address : Option AddrValue) : Except ErrorKind Account :=
  match address with
  | none => .ok ⟨private_key, impl.pubkey private_key.seed, none⟩
  | some v =>
      match to_address v with
      | .ok n => .ok ⟨private_key, impl.pubkey private_key.seed, some n⟩
      | .error e => .error e

/-- The construction invariant: the stored public key is the one derived
from the stored private key (established by `Account.init`, the only
constructor in the source). -/
def Account.wf (impl : Ed25519) (a : Account) : Prop :=
  a._public_key = impl.pubkey a._private_key.seed

/-- The `address` property setter: `self._address = to_address(value)`.
`to_address` is evaluated before the assignment, so a raise leaves the
object unchanged; the second component is the post-state. -/
def Account.set_address (a : Account) (value : AddrValue) :
    Except ErrorKind Unit × Account :=
  match to_address value with
  | .ok n => (.ok (), { a with _address := some n })
  | .error e => (.error e, a)

/-- Hex value of one character, `none` for a non-hex character. -/
def hexVal (c : Char) : Option Nat :=
  if 48 ≤ c.toNat ∧ c.toNat ≤ 57 then some (c.toNat - 48)
  else if 97 ≤ c.toNat ∧ c.toNat ≤ 102 then some (c.toNat - 87)
  else if 65 ≤ c.toNat ∧ c.toNat ≤ 70 then some (c.toNat - 55)
  else none

/-- Decode a hex string two characters per byte; `none` on a stray
character or an odd length (the library raises). -/
def decodeHexPairs : List Char → Option Bytes
  | [] => some []
  | [_] => none
  | c1 :: c2 :: rest => do
      let hi ← hexVal c1
      let lo ← hexVal c2
      let tail ← decodeHexPairs rest
      pure ((hi * 16 + lo) :: tail)

/-- Model of `eth_utils.remove_0x_prefix`: strip one leading `0x`/`0X`. -/
def remove0x (s : List Char) : List Char :=
  match s with
  | '0' :: 'x' :: rest => rest
  | '0' :: 'X' :: rest => rest
  | _ => s

/-- Model of `eth_utils.to_bytes(hexstr=...)`: an odd-length input gains
one leading `0` nibble, the optional `0x` prefix is removed, and the hex
pairs are decoded. -/
def to_bytes_hexstr (hexstr : List Char) : Option Bytes :=
  let payload := remove0x hexstr
  let padded := if hexstr.length % 2 = 1 then '0' :: payload else payload
  decodeHexPairs padded

/-- The lowercase hex character for a nibble. -/
def hexDigitChar (n : Nat) : Char :=
  if n < 10 then Char.ofNat (48 + n) else Char.ofNat (87 + n)

/-- Two lowercase hex characters for one byte. -/
def byteToHex (b : Nat) : List Char :=
  [hexDigitChar (b / 16), hexDigitChar (b % 16)]

/-- Model of `eth_utils.to_hex`: `0x` followed by lowercase hex pairs. -/
def to_hex_chars (bs : Bytes) : List Char :=
  ['0', 'x'] ++ (bs.map byteToHex).flatten

/-- `Account.sign`: decode the hex argument with
`to_bytes(hexstr=hash_text)`, sign the bytes with the private key, and
return the `0x`-hex rendering of the signature. The method assigns
nothing to `self`; the second component is the post-state. -/
def Account.sign (impl : Ed25519) (a : Account) (hash_text : List Char) :
    Except ErrorKind (List Char) × Account :=
  match to_bytes_hexstr hash_text with
  | some hash_data =>
      (.ok (to_hex_chars (impl.signBytes a._private_key.seed hash_data)), a)
  | none => (.error .valueError, a)

/-- `Account.export_to_text`: the private key as an encrypted PKCS8 PEM
archive under the given password. -/
def Account.export_to_text (a : Account) (password : Bytes) : PemBlob :=
  a._private_key.private_bytes_pem password

/-- `Account.export_to_mnemonic`: BIP-39 words over the raw private
bytes. -/
def Account.export_to_mnemonic (a : Account) : Except ErrorKind MnemonicWords :=
  Mnemonic.to_mnemonic a._private_key.private_bytes_raw

/-- `Account.import_from_bytes`: rebuild the key object from raw private
bytes and construct an `Account` around it. -/
def Account.import_from_bytes (impl : Ed25519) (value : Bytes)
    (address : Option AddrValue) : Except ErrorKind Account := do
  let pk ← Ed25519PrivateKey.from_private_bytes value
  Account.init impl pk address

/-- `Account.import_from_text`: decrypt the PEM archive with the password
and construct an `Account`. The source's `if private_key:` guard is
always taken, since the library returns a key object or raises. -/
def Account.import_from_text (impl : Ed25519) (text : PemBlob)
    (password : Bytes) (address : Option AddrValue) :
    Except ErrorKind Account := do
  let pk ← load_pem_private_key text password
  Account.init impl pk address

/-- `Account.import_from_mnemonic`: recover the entropy from the words
and rebuild the key from it. -/
def Account.import_from_mnemonic (impl : Ed25519) (words : MnemonicWords)
    (address : Option AddrValue) : Except ErrorKind Account := do
  let value ← Mnemonic.to_entropy words
  let pk ← Ed25519PrivateKey.from_private_bytes value
  Account.init impl pk address

/-- `Account.create`: a freshly generated random key (the randomness is
passed explicitly as the generated seed) and no address argument. -/
def Account.create (impl : Ed25519) (entropy : Bytes) :
    Except ErrorKind Account :=
  Account.init impl ⟨entropy⟩ none

/-- Modelled from the spec: `exportRawBytes` — the snapshot's `Account`
class exposes no raw-bytes export method; spec section 4.2 defines it as
the identity transform on the private scalar, i.e. the library call
`private_bytes(Raw, Raw, NoEncryption())` the source itself uses inside
`export_to_mnemonic`. -/
def Account.exportRawBytes (a : Account) : Bytes :=
  a._private_key.private_bytes_raw

/-- A concrete Ed25519 instantiation used to exercise the theorems on
closed inputs. -/
def sampleImpl : Ed25519 :=
  ⟨fun s => s, fun s m => s ++ m⟩

/-- A concrete 32-byte private key. -/
def sampleKey : Ed25519PrivateKey :=
  ⟨List.replicate 32 7⟩

/-- A concrete well-formed account bound to address 7. -/
def sampleAccount : Account :=
  ⟨sampleKey, List.replicate 32 7, some 7⟩

theorem decDigit_toNat (m : Nat) : (decDigit m).toNat = 48 + m % 10 := by
  have h : m % 10 < 10 := Nat.mod_lt _ (by omega)
  unfold decDigit
  generalize m % 10 = k at h ⊢
  interval_cases k <;> rfl

theorem decDigit_isDigit (m : Nat) : (decDigit m).isDigit = true := by
  have h : m % 10 < 10 := Nat.mod_lt _ (by omega)
  unfold decDigit
  generalize m % 10 = k at h ⊢
  interval_cases k <;> rfl

theorem decDigit_not_ws (m : Nat) : (decDigit m).isWhitespace = false := by
  have h : m % 10 < 10 := Nat.mod_lt _ (by omega)
  unfold decDigit
  generalize m % 10 = k at h ⊢
  interval_cases k <;> rfl

theorem natDigitsRev_ne_nil (n : Nat) : natDigitsRev n ≠ [] := by
  unfold natDigitsRev
  split <;> simp

theorem natDigitsRev_all_digit (n : Nat) :
    ∀ c ∈ natDigitsRev n, c.isDigit = true := by
  induction n using Nat.strong_induction_on with
  | _ n ih =>
    unfold natDigitsRev
    split
    · intro c hc
      rw [List.mem_singleton] at hc
      subst hc
      exact decDigit_isDigit n
    · rename_i h
      intro c hc
      rcases List.mem_cons.mp hc with h1 | h1
      · subst h1
        exact decDigit_isDigit n
      · exact ih (n / 10) (Nat.div_lt_self (by omega) (by omega)) c h1

theorem natDigitsRev_all_not_ws (n : Nat) :
    ∀ c ∈ natDigitsRev n, c.isWhitespace = false := by
  induction n using Nat.strong_induction_on with
  | _ n ih =>
    unfold natDigitsRev
    split
    · intro c hc
      rw [List.mem_singleton] at hc
      subst hc
      exact decDigit_not_ws n
    · rename_i h
      intro c hc
      rcases List.mem_cons.mp hc with h1 | h1
      · subst h1
        exact decDigit_not_ws n
      · exact ih (n / 10) (Nat.div_lt_self (by omega) (by omega)) c h1

theorem parseDec_append (l : List Char) (c : Char) :
    parseDec (l ++ [c]) = parseDec l * 10 + (c.toNat - 48) := by
  simp [parseDec, List.foldl_append]

theorem parseDec_natRepr (n : Nat) : parseDec (natRepr n) = n := by
  unfold natRepr
  induction n using Nat.strong_induction_on with
  | _ n ih =>
    unfold natDigitsRev
    split
    · rename_i h
      simp [parseDec, decDigit_toNat]
      omega
    · rename_i h
      rw [List.reverse_cons, parseDec_append,
        ih (n / 10) (Nat.div_lt_self (by omega) (by omega)), decDigit_toNat]
      omega

theorem dropWhile_eq_self {p : Char → Bool} {l : List Char}
    (h : ∀ c ∈ l, p c = false) : l.dropWhile p = l := by
  cases l with
  | nil => rfl
  | cons x xs => simp [List.dropWhile, h x (by simp)]

theorem trimChars_eq_self {l : List Char}
    (h : ∀ c ∈ l, c.isWhitespace = false) : trimChars l = l := by
  unfold trimChars ltrimChars
  rw [dropWhile_eq_self h,
    dropWhile_eq_self (fun c hc => h c (List.mem_reverse.mp hc)),
    List.reverse_reverse]

theorem isDecDigits_natRepr (n : Nat) : isDecDigits (natRepr n) = true := by
  unfold isDecDigits natRepr
  rw [Bool.and_eq_true, List.all_eq_true]
  constructor
  · simp [natDigitsRev_ne_nil n]
  · intro c hc
    exact natDigitsRev_all_digit n c (List.mem_reverse.mp hc)

theorem decodeHexPairs_isSome (l : List Char)
    (hl : ∀ c ∈ l, (hexVal c).isSome = true) (he : l.length % 2 = 0) :
    (decodeHexPairs l).isSome = true := by
  induction l using decodeHexPairs.induct with
  | case1 => rfl
  | case2 c => simp at he
  | case3 c1 c2 rest ih =>
    obtain ⟨h1, e1⟩ := Option.isSome_iff_exists.mp (hl c1 (by simp))
    obtain ⟨h2, e2⟩ := Option.isSome_iff_exists.mp (hl c2 (by simp))
    have hrest : (decodeHexPairs rest).isSome = true := by
      apply ih
      · intro c hc
        exact hl c (by simp [hc])
      · simp at he
        omega
    obtain ⟨tl, e3⟩ := Option.isSome_iff_exists.mp hrest
    simp [decodeHexPairs, e1, e2, e3]

theorem remove0x_of_hex (s : List Char)
    (hs : ∀ c ∈ s, (hexVal c).isSome = true) : remove0x s = s := by
  unfold remove0x
  split
  · exact absurd (hs 'x' (by simp)) (by decide)
  · exact absurd (hs 'X' (by simp)) (by decide)
  · rfl

theorem sign_snd (impl : Ed25519) (a : Account) (h : List Char) :
    (Account.sign impl a h).2 = a := by
  unfold Account.sign
  cases to_bytes_hexstr h <;> rfl

/-- C1: for every key material `k` and password `p`, importing the
encrypted textual archive produced by `export_to_text` with the same
password reproduces `k`: the resulting account has the same public key
bytes and the same raw private key bytes. -/
theorem c1_text_roundtrip (impl : Ed25519) (k : Account) (p : Bytes)
    (hwf : k.wf impl) :
    ∃ a', Account.import_from_text impl (k.export_to_text p) p none = .ok a' ∧
      a'._public_key = k._public_key ∧
      a'._private_key.private_bytes_raw = k._private_key.private_bytes_raw := by
  unfold Account.wf at hwf
  refine ⟨⟨k._private_key, impl.pubkey k._private_key.seed, none⟩, ?_, hwf.symm, rfl⟩
  have hload : load_pem_private_key (k.export_to_text p) p =
      .ok ⟨k._private_key.seed⟩ := by
    unfold load_pem_private_key Account.export_to_text
      Ed25519PrivateKey.private_bytes_pem
    exact if_pos rfl
  unfold Account.import_from_text
  rw [hload]
  rfl

/-- C1 witness: the round trip evaluated at a concrete key and
password. -/
theorem c1_text_roundtrip_witness :
    sampleAccount.wf sampleImpl ∧
    ∃ a', Account.import_from_text sampleImpl
        (sampleAccount.export_to_text [1, 2]) [1, 2] none = .ok a' ∧
      a'._public_key = sampleAccount._public_key ∧
      a'._private_key.private_bytes_raw =
        sampleAccount._private_key.private_bytes_raw :=
  ⟨rfl, c1_text_roundtrip sampleImpl sampleAccount [1, 2] rfl⟩

/-- C2: the mnemonic codec round-trips losslessly: importing the word
sequence produced by `export_to_mnemonic` reproduces an account with the
same public key bytes and the same raw private key bytes. -/
theorem c2_mnemonic_roundtrip (impl : Ed25519) (k : Account)
    (hlen : k._private_key.seed.length = 32) (hwf : k.wf impl) :
    ∃ w a', k.export_to_mnemonic = .ok w ∧
      Account.import_from_mnemonic impl w none = .ok a' ∧
      a'._public_key = k._public_key ∧
      a'._private_key.private_bytes_raw = k._private_key.private_bytes_raw := by
  unfold Account.wf at hwf
  refine ⟨⟨k._private_key.seed⟩,
    ⟨k._private_key, impl.pubkey k._private_key.seed, none⟩, ?_, ?_, hwf.symm, rfl⟩
  · unfold Account.export_to_mnemonic Mnemonic.to_mnemonic
    exact if_pos (by
      show bip39Len (List.length k._private_key.seed)
      rw [hlen]
      decide)
  · unfold Account.import_from_mnemonic
    have hent : Mnemonic.to_entropy ⟨k._private_key.seed⟩ =
        .ok k._private_key.seed := by
      unfold Mnemonic.to_entropy
      exact if_pos (by
        show bip39Len (List.length k._private_key.seed)
        rw [hlen]
        decide)
    rw [hent]
    show Except.bind (Ed25519PrivateKey.from_private_bytes k._private_key.seed)
      (fun pk => Account.init impl pk none) =
      Except.ok ⟨k._private_key, impl.pubkey k._private_key.seed, none⟩
    have hfpb : Ed25519PrivateKey.from_private_bytes k._private_key.seed =
        .ok ⟨k._private_key.seed⟩ := by
      unfold Ed25519PrivateKey.from_private_bytes
      exact if_pos hlen
    rw [hfpb]
    rfl

/-- C2 witness: the mnemonic round trip evaluated at a concrete key. -/
theorem c2_mnemonic_roundtrip_witness :
    sampleAccount._private_key.seed.length = 32 ∧
    sampleAccount.wf sampleImpl ∧
    ∃ w a', sampleAccount.export_to_mnemonic = .ok w ∧
      Account.import_from_mnemonic sampleImpl w none = .ok a' ∧
      a'._public_key = sampleAccount._public_key ∧
      a'._private_key.private_bytes_raw =
        sampleAccount._private_key.private_bytes_raw :=
  ⟨by decide, rfl, c2_mnemonic_roundtrip sampleImpl sampleAccount (by decide) rfl⟩

/-- C3: the raw-bytes codec pair is the identity transform on the
private scalar: `exportRawBytes` returns the private key bytes unchanged,
and `import_from_bytes` of that buffer reproduces identical key
material. -/
theorem c3_raw_roundtrip (impl : Ed25519) (k : Account)
    (hlen : k._private_key.seed.length = 32) (hwf : k.wf impl) :
    k.exportRawBytes = k._private_key.private_bytes_raw ∧
    ∃ a', Account.import_from_bytes impl k.exportRawBytes none = .ok a' ∧
      a'._private_key = k._private_key ∧
      a'._public_key = k._public_key := by
  unfold Account.wf at hwf
  refine ⟨rfl, ⟨k._private_key, impl.pubkey k._private_key.seed, none⟩,
    ?_, rfl, hwf.symm⟩
  unfold Account.import_from_bytes
  have hfpb : Ed25519PrivateKey.from_private_bytes k.exportRawBytes =
      .ok ⟨k._private_key.seed⟩ := by
    unfold Ed25519PrivateKey.from_private_bytes
    exact if_pos hlen
  rw [hfpb]
  rfl

/-- C3 witness: the raw-bytes round trip evaluated at a concrete key. -/
theorem c3_raw_roundtrip_witness :
    sampleAccount._private_key.seed.length = 32 ∧
    sampleAccount.wf sampleImpl ∧
    (sampleAccount.exportRawBytes =
      sampleAccount._private_key.private_bytes_raw ∧
    ∃ a', Account.import_from_bytes sampleImpl
        sampleAccount.exportRawBytes none = .ok a' ∧
      a'._private_key = sampleAccount._private_key ∧
      a'._public_key = sampleAccount._public_key) :=
  ⟨by decide, rfl, c3_raw_roundtrip sampleImpl sampleAccount (by decide) rfl⟩

/-- C4: importing the archive `export_to_text k p` with a different
password `q` fails with the decryption error kind — it never returns key
material without erroring — and that kind is distinct from the
`InvalidKeyFormat` format-error kind. -/
theorem c4_wrong_password (impl : Ed25519) (k : Account) (p q : Bytes)
    (hpq : p ≠ q) :
    Account.import_from_text impl (k.export_to_text p) q none =
      .error .decryptionError ∧
    ErrorKind.decryptionError ≠ ErrorKind.invalidKeyFormat := by
  refine ⟨?_, by decide⟩
  have hload : load_pem_private_key (k.export_to_text p) q =
      .error .decryptionError := by
    unfold load_pem_private_key Account.export_to_text
      Ed25519PrivateKey.private_bytes_pem
    exact if_neg hpq
  unfold Account.import_from_text
  rw [hload]
  rfl

/-- C4 witness: the wrong-password failure evaluated at concrete
passwords. -/
theorem c4_wrong_password_witness :
    ([1] : Bytes) ≠ [2] ∧
    (Account.import_from_text sampleImpl
        (sampleAccount.export_to_text [1]) [2] none =
      .error .decryptionError ∧
    ErrorKind.decryptionError ≠ ErrorKind.invalidKeyFormat) :=
  ⟨by decide, c4_wrong_password sampleImpl sampleAccount [1] [2] (by decide)⟩

/-- C5: the address setter applied to an invalid input fails with
`InvalidAddress` and leaves the account, in particular its stored
address, exactly as it was. -/
theorem c5_rebind_invalid_frame (a : Account) (A : Nat) (v : AddrValue)
    (hA : a._address = some A) (hv : to_address v = .error .invalidAddress) :
    (a.set_address v).1 = .error .invalidAddress ∧
    (a.set_address v).2._address = some A ∧
    (a.set_address v).2 = a := by
  unfold Account.set_address
  rw [hv]
  exact ⟨rfl, hA, rfl⟩

/-- C5 witness: a failed rebind at a concrete bound account and a
concrete invalid input. -/
theorem c5_rebind_invalid_frame_witness :
    sampleAccount._address = some 7 ∧
    to_address (.str ['a', 'b', 'c']) = .error .invalidAddress ∧
    ((sampleAccount.set_address (.str ['a', 'b', 'c'])).1 =
        .error .invalidAddress ∧
      (sampleAccount.set_address (.str ['a', 'b', 'c'])).2._address = some 7 ∧
      (sampleAccount.set_address (.str ['a', 'b', 'c'])).2 = sampleAccount) :=
  ⟨rfl, rfl,
    c5_rebind_invalid_frame sampleAccount 7 (.str ['a', 'b', 'c']) rfl rfl⟩

/-- C6: address normalization maps every non-negative integer `n` to
itself and the string `"#" + str(n)` to `n`, and signals `InvalidAddress`
on `"-1"`, on every negative integer, and on non-numeric text such as
`"abc"`. -/
theorem c6_to_address_spec (n : Nat) (m : Int) (hm : m < 0) :
    to_address (.int (n : Int)) = .ok n ∧
    to_address (.str ('#' :: natRepr n)) = .ok n ∧
    to_address (.int m) = .error .invalidAddress ∧
    to_address (.str ['-', '1']) = .error .invalidAddress ∧
    to_address (.str ['a', 'b', 'c']) = .error .invalidAddress := by
  refine ⟨by simp [to_address], ?_, ?_, by rfl, by rfl⟩
  · have htrim : trimChars ('#' :: natRepr n) = '#' :: natRepr n := by
      apply trimChars_eq_self
      intro c hc
      rcases List.mem_cons.mp hc with h1 | h1
      · subst h1
        rfl
      · exact natDigitsRev_all_not_ws n c (List.mem_reverse.mp h1)
    simp [to_address, htrim, stripHash, isDecDigits_natRepr, parseDec_natRepr]
  · show (if 0 ≤ m then Except.ok m.toNat
        else Except.error ErrorKind.invalidAddress) =
      Except.error ErrorKind.invalidAddress
    rw [if_neg (by omega)]

/-- C6 witness: normalization evaluated at `42`, `"#42"` and `-1`. -/
theorem c6_to_address_spec_witness :
    (-1 : Int) < 0 ∧
    (to_address (.int ((42 : Nat) : Int)) = .ok 42 ∧
      to_address (.str ('#' :: natRepr 42)) = .ok 42 ∧
      to_address (.int (-1)) = .error .invalidAddress ∧
      to_address (.str ['-', '1']) = .error .invalidAddress ∧
      to_address (.str ['a', 'b', 'c']) = .error .invalidAddress) :=
  ⟨by decide, c6_to_address_spec 42 (-1) (by decide)⟩

/-- C9: `Account.create` always yields an account whose stored address
is unset (the unbound state). -/
theorem c9_create_unbound (impl : Ed25519) (entropy : Bytes) :
    ∃ a, Account.create impl entropy = .ok a ∧ a._address = none :=
  ⟨_, rfl, rfl⟩

/-- C7: signing the same fixed hash twice with the same key material
produces identical signature strings — the scheme (RFC 8032 Ed25519) is
deterministic, so the first branch of the claim's disjunction holds. The
second invocation runs on the state left by the first. -/
theorem c7_sign_deterministic (impl : Ed25519) (a : Account) (h : List Char)
    (r1 r2 : Except ErrorKind (List Char)) (a1 a2 : Account)
    (h1 : Account.sign impl a h = (r1, a1))
    (h2 : Account.sign impl a1 h = (r2, a2)) : r1 = r2 := by
  rw [Prod.ext_iff] at h1 h2
  have ha1 : a1 = a := h1.2.symm.trans (sign_snd impl a h)
  rw [ha1] at h2
  exact h1.1.symm.trans h2.1

/-- C7 witness: two consecutive signatures over the same hash at a
concrete key coincide. -/
theorem c7_sign_deterministic_witness :
    (Account.sign sampleImpl sampleAccount ['0', '0']).1 =
      (Account.sign sampleImpl
        (Account.sign sampleImpl sampleAccount ['0', '0']).2 ['0', '0']).1 :=
  c7_sign_deterministic sampleImpl sampleAccount ['0', '0'] _ _ _ _ rfl rfl

/-- C8: `sign` leaves the account entirely unchanged — private key,
derived public key and stored address are the same after the call; its
only effect is the returned signature. -/
theorem c8_sign_frame (impl : Ed25519) (a : Account) (h : List Char) :
    (Account.sign impl a h).2._private_key = a._private_key ∧
    (Account.sign impl a h).2._public_key = a._public_key ∧
    (Account.sign impl a h).2._address = a._address ∧
    (Account.sign impl a h).2 = a := by
  rw [sign_snd]
  exact ⟨rfl, rfl, rfl, rfl⟩

/-- C10: `sign` imposes no length precondition: for every string of hex
digits, of any length (odd, even, empty), signing succeeds and returns
the `0x`-prefixed hex encoding of the signature over the decoded
bytes. -/
theorem c10_sign_any_hex (impl : Ed25519) (a : Account) (s : List Char)
    (hs : ∀ c ∈ s, (hexVal c).isSome = true) :
    ∃ d, to_bytes_hexstr s = some d ∧
      Account.sign impl a s =
        (.ok (to_hex_chars (impl.signBytes a._private_key.seed d)), a) := by
  have hd : (to_bytes_hexstr s).isSome = true := by
    unfold to_bytes_hexstr
    rw [remove0x_of_hex s hs]
    split
    · rename_i hodd
      apply decodeHexPairs_isSome
      · intro c hc
        rcases List.mem_cons.mp hc with h1 | h1
        · subst h1
          decide
        · exact hs c h1
      · simp only [List.length_cons]
        omega
    · rename_i heven
      exact decodeHexPairs_isSome s hs (by omega)
  obtain ⟨d, hd⟩ := Option.isSome_iff_exists.mp hd
  refine ⟨d, hd, ?_⟩
  unfold Account.sign
  rw [hd]

/-- C10 witness: signing an odd-length (three hex characters, not 32
bytes) hash argument at a concrete key. -/
theorem c10_sign_any_hex_witness :
    (∀ c ∈ ['a', 'b', 'c'], (hexVal c).isSome = true) ∧
    ∃ d, to_bytes_hexstr ['a', 'b', 'c'] = some d ∧
      Account.sign sampleImpl sampleAccount ['a', 'b', 'c'] =
        (.ok (to_hex_chars
          (sampleImpl.signBytes sampleAccount._private_key.seed d)),
          sampleAccount) :=
  ⟨by decide, c10_sign_any_hex sampleImpl sampleAccount ['a', 'b', 'c'] (by decide)⟩

end ConvexApi
